import Mathlib

/-!
Shallow embedding of the coltrane weblog models (src/models.py and
src/coltrane/models.py): entry and link records, markup rendering on save,
the live/draft manager filters, the comment-count ranking query, the
adjacent-live-entry lookups, tag synchronization, uniqueness constraints,
and the comment-moderation window.

Timestamps are modelled as integers (day granularity, matching the
day-count moderation window and the per-date slug uniqueness).  Optional
text fields use the empty string for Python-falsy values (None or "").
External collaborators (the markup renderer, the bookmarking service, the
tag store, the clock) are parameters.
-/

namespace Coltrane

/-- Entry status codes, from ENTRY_STATUS_CHOICES in src/models.py and
LIVE_STATUS = 1, DRAFT_STATUS = 2, HIDDEN_STATUS = 3 in
src/coltrane/models.py. -/
inductive Status where
  | live
  | draft
  | hidden
  deriving DecidableEq

/-- An entry in the weblog (class Entry).  Fields irrelevant to the claims
(author, featured, categories) are omitted; `tag_list` is the raw tag
string field. -/
structure Entry where
  id : Nat
  enable_comments : Bool
  pub_date : Int
  slug : String
  status : Status
  title : String
  body : String
  body_html : String
  excerpt : String
  excerpt_html : String
  tag_list : String
  deriving DecidableEq

/-- Entry.save (src/models.py lines 160-169, src/coltrane/models.py lines
145-149): run the markup filter before the row write — the excerpt only
when truthy (`if self.excerpt:`), the body unconditionally.  The renderer
(utils.apply_markup_filter / template_utils.markup.formatter) is an
external collaborator passed as a parameter. -/
def Entry.save (render : String → String) (e : Entry) : Entry :=
  let e1 := if e.excerpt ≠ "" then { e with excerpt_html := render e.excerpt } else e
  { e1 with body_html := render e1.body }

/-- Entry.comments_open (src/models.py lines 177-183):
`self.enable_comments and today() - timedelta(COMMENTS_MODERATE_AFTER) <=
self.pub_date`.  The current time `now` and the configured day count
`close_after` are parameters (the code reads them from the clock and from
settings). -/
def Entry.comments_open (e : Entry) (now close_after : Int) : Bool :=
  e.enable_comments && decide (now - close_after ≤ e.pub_date)

/-- EntryManager.live (src/models.py lines 50-58): filter(status__exact=1),
with the model Meta ordering ['-pub_date'] (publication date descending)
applied to the queryset. -/
def live (entries : List Entry) : List Entry :=
  List.insertionSort (fun a b => b.pub_date ≤ a.pub_date)
    (entries.filter (fun e => e.status == Status.live))

/-- EntryManager.drafts (src/models.py lines 60-68): filter(status__exact=2),
same Meta ordering. -/
def drafts (entries : List Entry) : List Entry :=
  List.insertionSort (fun a b => b.pub_date ≤ a.pub_date)
    (entries.filter (fun e => e.status == Status.draft))

/-- A row of the external comment table, keyed to an entry by object_id,
with its public-visibility flag (the ranking query's WHERE is_public = 1). -/
structure Comment where
  object_id : Nat
  is_public : Bool
  deriving DecidableEq

/-- Number of publicly-visible comments attached to entry id `i`
(COUNT(*) of the GROUP BY object_id row for `i`). -/
def publicCount (comments : List Comment) (i : Nat) : Nat :=
  (comments.filter (fun c => c.is_public && c.object_id == i)).length

/-- The rows of the raw ranking query in EntryManager.most_commented
(src/models.py lines 88-97): object ids having at least one public
comment, ordered by score descending (ORDER BY score DESC leaves the tie
order to the database; a stable sort realises one such order). -/
def rankedIds (comments : List Comment) : List Nat :=
  List.insertionSort (fun a b => publicCount comments b ≤ publicCount comments a)
    (((comments.filter (fun c => c.is_public)).map (fun c => c.object_id)).dedup)

/-- EntryManager.most_commented (src/models.py lines 70-102): truncate the
ranking-query rows to `num` ids (`fetchall()[:num]`), then map each id back
to its entry via the id-keyed in_bulk dictionary, preserving the query
order. -/
def most_commented (num : Nat) (comments : List Comment) (entries : List Entry) : List Entry :=
  ((rankedIds comments).take num).filterMap
    (fun i => entries.find? (fun e => e.id == i))

/-- Strict lexicographic (pub_date, primary key) order underlying
get_next_by_pub_date / get_previous_by_pub_date: rows are compared by
pub_date with the primary key as tiebreaker. -/
def keyLt (a b : Entry) : Bool :=
  a.pub_date < b.pub_date || (a.pub_date == b.pub_date && a.id < b.id)

/-- First row of a queryset ordered ascending by (pub_date, pk): the
minimum under keyLt. -/
def firstByKey : List Entry → Option Entry
  | [] => none
  | x :: xs =>
    match firstByKey xs with
    | none => some x
    | some b => if keyLt x b then some x else some b

/-- First row of a queryset ordered descending by (pub_date, pk): the
maximum under keyLt. -/
def lastByKey : List Entry → Option Entry
  | [] => none
  | x :: xs =>
    match lastByKey xs with
    | none => some x
    | some b => if keyLt b x then some x else some b

/-- Entry.get_next via _next_previous_helper (src/coltrane/models.py lines
158-171): get_next_by_pub_date(status__exact=LIVE_STATUS) — the earliest
row strictly after `e` among rows with Live status, or none. -/
def get_next (entries : List Entry) (e : Entry) : Option Entry :=
  firstByKey (entries.filter (fun x => x.status == Status.live && keyLt e x))

/-- Entry.get_previous via _next_previous_helper (src/coltrane/models.py
lines 173-184): the latest row strictly before `e` among rows with Live
status, or none. -/
def get_previous (entries : List Entry) (e : Entry) : Option Entry :=
  lastByKey (entries.filter (fun x => x.status == Status.live && keyLt x e))

/-- A link posted to the weblog (class Link).  `id` is none until the row
has been inserted (Python: `self.id` is None before the first save). -/
structure Link where
  id : Option Nat
  enable_comments : Bool
  post_elsewhere : Bool
  pub_date : Int
  slug : String
  title : String
  description : String
  description_html : String
  via_name : String
  via_url : String
  tag_list : String
  url : String
  deriving DecidableEq

/-- Result of a Link save: the persisted row and whether an external
bookmarking-service post was attempted during it. -/
structure LinkSaveResult where
  link : Link
  postAttempted : Bool
  deriving DecidableEq

/-- Link.save (src/models.py lines 249-258, src/coltrane/models.py lines
238-247): on first creation (`not self.id`) with post_elsewhere set,
attempt the external bookmarking post inside try/except with a bare
`except: pass` — both outcomes of the fallible service call `svc` are
discarded, so an error never escapes; then render the description (only
when truthy, matching the coltrane version's `if self.description:`) and
write the row, which assigns the primary key `newId` on insert. -/
def Link.save (render : String → String)
    (svc : String → String → String → Except String Unit)
    (newId : Nat) (l : Link) : Except String LinkSaveResult := do
  let attempted := l.id.isNone && l.post_elsewhere
  if attempted then
    match svc l.url l.title l.tag_list with
    | Except.ok _ => pure ()
    | Except.error _ => pure ()
  let l1 := if l.description ≠ "" then { l with description_html := render l.description } else l
  pure { link := { l1 with id := some (l1.id.getD newId) }, postAttempted := attempted }

/-- Modelled from the spec: the tag store (django-tagging's
Tag.objects.update_tags / get_for_object, not under src) keeps, per entity
id, the complete tag list; set_tags replaces that list and get_tags reads
it back. -/
def TagStore : Type := Nat → List String

/-- Tag replacement (Tag.objects.update_tags, reached through the `tags`
property setter): the new label list replaces whatever was stored for the
entity. -/
def set_tags (store : TagStore) (entity : Nat) (labels : List String) : TagStore :=
  fun i => if i = entity then labels else store i

/-- Tag lookup (Tag.objects.get_for_object, reached through the `tags`
property getter). -/
def get_tags (store : TagStore) (entity : Nat) : List String :=
  store entity

/-- Data-validation error surfaced by the relational store on a constraint
violation. -/
inductive SaveError where
  | uniqueViolation
  deriving DecidableEq

/-- Modelled from the spec: enforcement of the uniqueness constraints
declared on Link — url unique (src/coltrane/models.py line 225,
src/models.py line 232) and slug unique per publication date
(unique_for_date / unique_together) — lives in the relational store; an
insert that conflicts with a stored row fails with a data-validation
error and is not retried. -/
def insertLink (store : List Link) (l : Link) : Except SaveError (List Link) :=
  if store.any (fun x => x.url == l.url || (x.slug == l.slug && x.pub_date == l.pub_date))
  then Except.error SaveError.uniqueViolation
  else Except.ok (store ++ [l])

/-- Modelled from the spec: enforcement of Entry's slug-unique-per-date
constraint (unique_for_date='pub_date' / unique_together (slug, pub_date))
by the relational store. -/
def insertEntry (store : List Entry) (e : Entry) : Except SaveError (List Entry) :=
  if store.any (fun x => x.slug == e.slug && x.pub_date == e.pub_date)
  then Except.error SaveError.uniqueViolation
  else Except.ok (store ++ [e])

/-- An Entry created without an explicit status or comment flag: the field
defaults apply — enable_comments default True, status default 1 / Live
(src/models.py line 126, src/coltrane/models.py lines 118-119). -/
def Entry.new (id : Nat) (pub_date : Int) (slug title body : String) : Entry :=
  { id := id, enable_comments := true, pub_date := pub_date, slug := slug,
    status := Status.live, title := title, body := body, body_html := "",
    excerpt := "", excerpt_html := "", tag_list := "" }

end Coltrane

namespace Coltrane

/-- C2: comments_open is true exactly when enable_comments is set and the
entry is at most close_after days old, i.e. now - pub_date ≤ close_after;
hence it is false once now - pub_date exceeds close_after and is never
true when enable_comments is unset. -/
theorem comments_open_iff (e : Entry) (now close_after : Int) :
    e.comments_open now close_after = true ↔
      (e.enable_comments = true ∧ now - e.pub_date ≤ close_after) := by
  unfold Entry.comments_open
  simp only [Bool.and_eq_true, decide_eq_true_eq]
  constructor
  · rintro ⟨h1, h2⟩
    exact ⟨h1, by omega⟩
  · rintro ⟨h1, h2⟩
    exact ⟨h1, by omega⟩

/-- C3: immediately after save, the stored body_html is exactly the
renderer applied to the current body, and after editing body and saving
again it is the rendering of the new body. -/
theorem save_body_html (render : String → String) (e : Entry) (b : String) :
    (e.save render).body_html = render e.body ∧
      (Entry.save render { e.save render with body := b }).body_html = render b := by
  constructor
  · by_cases h : e.excerpt = "" <;> simp [Entry.save, h]
  · by_cases h : e.excerpt = "" <;> simp [Entry.save, h]

/-- C9: set_tags replaces the complete tag set — the last write fully
determines get_tags — and in particular writing ["a","b"] then ["c"]
leaves exactly ["c"]. -/
theorem set_tags_replaces (store : TagStore) (entity : Nat) (ls1 ls2 : List String) :
    get_tags (set_tags (set_tags store entity ls1) entity ls2) entity = ls2 ∧
      get_tags (set_tags (set_tags store entity ["a", "b"]) entity ["c"]) entity = ["c"] := by
  constructor <;> simp [get_tags, set_tags]

/-- C10: an Entry created with the field defaults has Live status and is
returned by live() once stored. -/
theorem new_entry_is_live (id : Nat) (pd : Int) (slug title body : String)
    (entries : List Entry) :
    (Entry.new id pd slug title body).status = Status.live ∧
      Entry.new id pd slug title body ∈ live (entries ++ [Entry.new id pd slug title body]) := by
  refine ⟨rfl, ?_⟩
  unfold live
  rw [List.mem_insertionSort, List.mem_filter]
  exact ⟨List.mem_append_right _ (List.mem_singleton_self _), rfl⟩

end Coltrane

namespace Coltrane

/-- Normal form of Link.save: the try/except swallows any outcome of the
service call, so the save always succeeds and returns the persisted row
(id assigned, description rendered only when truthy) together with the
post-attempt flag. -/
theorem link_save_eq (render : String → String)
    (svc : String → String → String → Except String Unit)
    (newId : Nat) (l : Link) :
    Link.save render svc newId l =
      Except.ok
        { link :=
            { id := some (l.id.getD newId),
              enable_comments := l.enable_comments,
              post_elsewhere := l.post_elsewhere,
              pub_date := l.pub_date, slug := l.slug, title := l.title,
              description := l.description,
              description_html :=
                if l.description ≠ "" then render l.description else l.description_html,
              via_name := l.via_name, via_url := l.via_url,
              tag_list := l.tag_list, url := l.url },
          postAttempted := l.id.isNone && l.post_elsewhere } := by
  by_cases hd : l.description = "" <;>
    cases ha : (l.id.isNone && l.post_elsewhere) <;>
      cases hs : svc l.url l.title l.tag_list <;>
        simp [Link.save, hd, ha, hs, pure, Except.pure, Bind.bind, Except.bind]

/-- Concrete renderer used in the counterexample: wraps its input in a
paragraph element, as a markup filter would. -/
def renderP (s : String) : String := "<p>" ++ s ++ "</p>"

/-- Concrete entry whose excerpt is nonempty before the first save. -/
def entryWithExcerpt : Entry :=
  { id := 1, enable_comments := true, pub_date := 0, slug := "s", status := Status.live,
    title := "t", body := "b", body_html := "", excerpt := "x", excerpt_html := "",
    tag_list := "" }

/-- C4 counterexample: save an entry with excerpt "x", edit the excerpt to
empty, save again — the stored excerpt_html keeps the old rendering and is
not the rendering of the now-empty excerpt. -/
theorem excerpt_html_stale_after_empty_edit :
    (Entry.save renderP { Entry.save renderP entryWithExcerpt with excerpt := "" }).excerpt = "" ∧
      (Entry.save renderP { Entry.save renderP entryWithExcerpt with excerpt := "" }).excerpt_html ≠
        renderP (Entry.save renderP { Entry.save renderP entryWithExcerpt with excerpt := "" }).excerpt := by
  constructor
  · rfl
  · intro h
    simp [Entry.save, entryWithExcerpt, renderP] at h

/-- C4 amended: after every save the optional rendered fields mirror their
source fields whenever the source field is nonempty; when the source field
is empty (including after an edit to empty) the save skips rendering it
and the rendered field keeps its previous value. -/
theorem save_optional_html (render : String → String)
    (svc : String → String → String → Except String Unit)
    (newId : Nat) (e : Entry) (l : Link) :
    (Entry.save render e).excerpt_html
        = (if e.excerpt ≠ "" then render e.excerpt else e.excerpt_html) ∧
      ∃ r : LinkSaveResult, Link.save render svc newId l = Except.ok r ∧
        r.link.description_html
          = (if l.description ≠ "" then render l.description else l.description_html) := by
  constructor
  · by_cases h : e.excerpt = "" <;> simp [Entry.save, h]
  · exact ⟨_, link_save_eq render svc newId l, rfl⟩

/-- C5: the bookmarking post is attempted exactly on first creation (no id
assigned yet) with post_elsewhere set; any service failure is swallowed —
the save still returns the persisted row — and the persisted row carries
an id, so re-saving it never attempts the post again. -/
theorem link_post_once (render : String → String)
    (svc : String → String → String → Except String Unit)
    (newId : Nat) (l : Link) :
    ∃ r : LinkSaveResult,
      Link.save render svc newId l = Except.ok r ∧
      r.postAttempted = (l.id.isNone && l.post_elsewhere) ∧
      r.link.id.isSome = true ∧
      ∀ (render2 : String → String) (svc2 : String → String → String → Except String Unit)
        (newId2 : Nat),
        ∃ r2 : LinkSaveResult,
          Link.save render2 svc2 newId2 r.link = Except.ok r2 ∧
            r2.postAttempted = false := by
  refine ⟨_, link_save_eq render svc newId l, rfl, rfl, ?_⟩
  intro render2 svc2 newId2
  exact ⟨_, link_save_eq render2 svc2 newId2 _, rfl⟩

end Coltrane

namespace Coltrane

/-- C8: after a successful insert, a second Link with the same url, or
with the same slug and publication date, is rejected with a uniqueness
error; likewise a second Entry with the same slug and publication date.
The insert returns the error to the caller — there is no retry. -/
theorem insert_duplicate_fails :
    (∀ (store s1 : List Link) (l1 l2 : Link),
        insertLink store l1 = Except.ok s1 →
        (l2.url = l1.url ∨ (l2.slug = l1.slug ∧ l2.pub_date = l1.pub_date)) →
        insertLink s1 l2 = Except.error SaveError.uniqueViolation) ∧
      (∀ (store s1 : List Entry) (e1 e2 : Entry),
        insertEntry store e1 = Except.ok s1 →
        e2.slug = e1.slug → e2.pub_date = e1.pub_date →
        insertEntry s1 e2 = Except.error SaveError.uniqueViolation) := by
  constructor
  · intro store s1 l1 l2 h1 h2
    by_cases hdup :
        (store.any fun x =>
          x.url == l1.url || (x.slug == l1.slug && x.pub_date == l1.pub_date)) = true
    · simp [insertLink, hdup] at h1
    · simp [insertLink, hdup] at h1
      subst h1
      have hc : ((store ++ [l1]).any fun x =>
          x.url == l2.url || (x.slug == l2.slug && x.pub_date == l2.pub_date)) = true := by
        apply List.any_eq_true.mpr
        refine ⟨l1, List.mem_append_right _ (List.mem_singleton_self _), ?_⟩
        rcases h2 with h | ⟨hs, hp⟩
        · simp [h]
        · simp [hs, hp]
      simp [insertLink, hc]
  · intro store s1 e1 e2 h1 hs hp
    by_cases hdup :
        (store.any fun x => x.slug == e1.slug && x.pub_date == e1.pub_date) = true
    · simp [insertEntry, hdup] at h1
    · simp [insertEntry, hdup] at h1
      subst h1
      have hc : ((store ++ [e1]).any fun x =>
          x.slug == e2.slug && x.pub_date == e2.pub_date) = true := by
        apply List.any_eq_true.mpr
        exact ⟨e1, List.mem_append_right _ (List.mem_singleton_self _), by simp [hs, hp]⟩
      simp [insertEntry, hc]

/-- Concrete link rows sharing a url, for the uniqueness witness. -/
def linkRowA : Link :=
  { id := none, enable_comments := true, post_elsewhere := false, pub_date := 0,
    slug := "a", title := "A", description := "", description_html := "",
    via_name := "", via_url := "", tag_list := "", url := "http://example.com/x" }

/-- Second link row with the same url as linkRowA. -/
def linkRowB : Link :=
  { linkRowA with slug := "b", title := "B" }

/-- Concrete entry rows sharing slug and publication date. -/
def entryRowA : Entry := Entry.new 1 0 "dup" "A" "body"

/-- Second entry row with the same slug and date as entryRowA. -/
def entryRowB : Entry := Entry.new 2 0 "dup" "B" "body"

/-- Witness for the uniqueness claim at concrete rows. -/
theorem insert_duplicate_fails_witness :
    insertLink [linkRowA] linkRowB = Except.error SaveError.uniqueViolation ∧
      insertEntry [entryRowA] entryRowB = Except.error SaveError.uniqueViolation := by
  constructor
  · exact insert_duplicate_fails.1 [] [linkRowA] linkRowA linkRowB rfl (Or.inl rfl)
  · exact insert_duplicate_fails.2 [] [entryRowA] entryRowA entryRowB rfl rfl rfl

/-- C7: live() returns exactly the stored entries with Live status,
ordered by pub_date descending, and drafts() exactly those with Draft
status; neither ever contains an entry of another status. -/
theorem live_drafts_exact (entries : List Entry) :
    (∀ x, x ∈ live entries ↔ (x ∈ entries ∧ x.status = Status.live)) ∧
      List.Sorted (fun a b : Entry => b.pub_date ≤ a.pub_date) (live entries) ∧
      (∀ x, x ∈ drafts entries ↔ (x ∈ entries ∧ x.status = Status.draft)) := by
  refine ⟨?_, ?_, ?_⟩
  · intro x
    unfold live
    rw [List.mem_insertionSort, List.mem_filter]
    simp
  · unfold live
    haveI : IsTotal Entry (fun a b => b.pub_date ≤ a.pub_date) :=
      ⟨fun a b => le_total b.pub_date a.pub_date⟩
    haveI : IsTrans Entry (fun a b => b.pub_date ≤ a.pub_date) :=
      ⟨fun a b c hab hbc => le_trans hbc hab⟩
    exact List.sorted_insertionSort _ _
  · intro x
    unfold drafts
    rw [List.mem_insertionSort, List.mem_filter]
    simp

end Coltrane

namespace Coltrane

/-- Arithmetic reading of the row order keyLt. -/
theorem keyLt_iff (a b : Entry) :
    keyLt a b = true ↔
      (a.pub_date < b.pub_date ∨ (a.pub_date = b.pub_date ∧ a.id < b.id)) := by
  simp [keyLt]

/-- Negated arithmetic reading of keyLt. -/
theorem keyLt_eq_false_iff (a b : Entry) :
    keyLt a b = false ↔
      ¬(a.pub_date < b.pub_date ∨ (a.pub_date = b.pub_date ∧ a.id < b.id)) := by
  rw [← keyLt_iff]
  cases keyLt a b <;> simp

/-- Irreflexivity of the row order. -/
theorem keyLt_irrefl (a : Entry) : keyLt a a = false := by
  rw [keyLt_eq_false_iff]
  omega

/-- A row below the running minimum stays below any row not below it. -/
theorem keyLt_min_trans {x b y : Entry} (h1 : keyLt x b = true)
    (h2 : keyLt y b = false) : keyLt y x = false := by
  rw [keyLt_iff] at h1
  rw [keyLt_eq_false_iff] at h2 ⊢
  omega

/-- A row above the running maximum stays above any row not above it. -/
theorem keyLt_max_trans {x b y : Entry} (h1 : keyLt b x = true)
    (h2 : keyLt b y = false) : keyLt x y = false := by
  rw [keyLt_iff] at h1
  rw [keyLt_eq_false_iff] at h2 ⊢
  omega

/-- firstByKey returns a member below every member, and none only on the
empty list. -/
theorem firstByKey_spec (xs : List Entry) :
    (∀ b, firstByKey xs = some b → b ∈ xs ∧ ∀ y ∈ xs, keyLt y b = false) ∧
      (firstByKey xs = none → xs = []) := by
  induction xs with
  | nil => simp [firstByKey]
  | cons x xs ih =>
    constructor
    · intro b hb
      unfold firstByKey at hb
      cases hfx : firstByKey xs with
      | none =>
        rw [hfx] at hb
        cases hb
        have hxs : xs = [] := ih.2 hfx
        subst hxs
        refine ⟨List.mem_singleton_self _, ?_⟩
        intro y hy
        rw [List.mem_singleton] at hy
        subst hy
        exact keyLt_irrefl _
      | some m =>
        rw [hfx] at hb
        obtain ⟨hmmem, hmall⟩ := ih.1 m hfx
        by_cases hk : keyLt x m = true
        · simp [hk] at hb
          subst hb
          refine ⟨List.mem_cons_self _ _, ?_⟩
          intro y hy
          rcases List.mem_cons.mp hy with hy | hy
          · subst hy
            exact keyLt_irrefl _
          · exact keyLt_min_trans hk (hmall y hy)
        · have hk2 : keyLt x m = false := by
            cases h : keyLt x m
            · rfl
            · exact absurd h hk
          simp [hk2] at hb
          subst hb
          refine ⟨List.mem_cons_of_mem _ hmmem, ?_⟩
          intro y hy
          rcases List.mem_cons.mp hy with hy | hy
          · subst hy
            exact hk2
          · exact hmall y hy
    · intro h
      unfold firstByKey at h
      cases hfx : firstByKey xs with
      | none =>
        rw [hfx] at h
        exact absurd h (by simp)
      | some m =>
        rw [hfx] at h
        by_cases hk : keyLt x m = true <;> simp [hk] at h

/-- lastByKey returns a member above every member, and none only on the
empty list. -/
theorem lastByKey_spec (xs : List Entry) :
    (∀ b, lastByKey xs = some b → b ∈ xs ∧ ∀ y ∈ xs, keyLt b y = false) ∧
      (lastByKey xs = none → xs = []) := by
  induction xs with
  | nil => simp [lastByKey]
  | cons x xs ih =>
    constructor
    · intro b hb
      unfold lastByKey at hb
      cases hfx : lastByKey xs with
      | none =>
        rw [hfx] at hb
        cases hb
        have hxs : xs = [] := ih.2 hfx
        subst hxs
        refine ⟨List.mem_singleton_self _, ?_⟩
        intro y hy
        rw [List.mem_singleton] at hy
        subst hy
        exact keyLt_irrefl _
      | some m =>
        rw [hfx] at hb
        obtain ⟨hmmem, hmall⟩ := ih.1 m hfx
        by_cases hk : keyLt m x = true
        · simp [hk] at hb
          subst hb
          refine ⟨List.mem_cons_self _ _, ?_⟩
          intro y hy
          rcases List.mem_cons.mp hy with hy | hy
          · subst hy
            exact keyLt_irrefl _
          · exact keyLt_max_trans hk (hmall y hy)
        · have hk2 : keyLt m x = false := by
            cases h : keyLt m x
            · rfl
            · exact absurd h hk
          simp [hk2] at hb
          subst hb
          refine ⟨List.mem_cons_of_mem _ hmmem, ?_⟩
          intro y hy
          rcases List.mem_cons.mp hy with hy | hy
          · subst hy
            exact hk2
          · exact hmall y hy
    · intro h
      unfold lastByKey at h
      cases hfx : lastByKey xs with
      | none =>
        rw [hfx] at h
        exact absurd h (by simp)
      | some m =>
        rw [hfx] at h
        by_cases hk : keyLt m x = true <;> simp [hk] at h

end Coltrane

namespace Coltrane

/-- Live entry at time 1 for the skip-non-live example. -/
def entryT1 : Entry := Entry.new 1 1 "t1" "T1" "b"

/-- Hidden entry at time 2 for the skip-non-live example. -/
def entryT2 : Entry := { Entry.new 2 2 "t2" "T2" "b" with status := Status.hidden }

/-- Live entry at time 3 for the skip-non-live example. -/
def entryT3 : Entry := Entry.new 3 3 "t3" "T3" "b"

/-- Store holding the three example entries. -/
def nextPrevEntries : List Entry := [entryT1, entryT2, entryT3]

/-- C6: get_next returns a stored Live entry strictly after the given one
in (pub_date, pk) order and below every other such entry (so non-live
neighbors are skipped), or none when no live entry follows; get_previous
is symmetric; and on entries t1(Live), t2(Hidden), t3(Live), get_next
from t1 is t3 and get_previous from t3 is t1. -/
theorem get_next_previous_spec :
    (∀ (entries : List Entry) (e : Entry),
        (∀ x, get_next entries e = some x →
          x ∈ entries ∧ x.status = Status.live ∧ keyLt e x = true ∧
            ∀ y ∈ entries, y.status = Status.live → keyLt e y = true →
              keyLt y x = false) ∧
          (get_next entries e = none →
            ∀ y ∈ entries, y.status = Status.live → keyLt e y = false)) ∧
      (∀ (entries : List Entry) (e : Entry),
        (∀ x, get_previous entries e = some x →
          x ∈ entries ∧ x.status = Status.live ∧ keyLt x e = true ∧
            ∀ y ∈ entries, y.status = Status.live → keyLt y e = true →
              keyLt x y = false) ∧
          (get_previous entries e = none →
            ∀ y ∈ entries, y.status = Status.live → keyLt y e = false)) ∧
      (get_next nextPrevEntries entryT1 = some entryT3 ∧
        get_previous nextPrevEntries entryT3 = some entryT1) := by
  refine ⟨?_, ?_, by decide, by decide⟩
  · intro entries e
    constructor
    · intro x hx
      unfold get_next at hx
      obtain ⟨hmem, hall⟩ := (firstByKey_spec _).1 x hx
      rw [List.mem_filter] at hmem
      obtain ⟨hin, hcond⟩ := hmem
      rw [Bool.and_eq_true, beq_iff_eq] at hcond
      refine ⟨hin, hcond.1, hcond.2, ?_⟩
      intro y hy hylive hky
      exact hall y (List.mem_filter.mpr ⟨hy, by simp [hylive, hky]⟩)
    · intro hn y hy hylive
      unfold get_next at hn
      have hempty := (firstByKey_spec _).2 hn
      cases hky : keyLt e y with
      | false => rfl
      | true =>
        have : y ∈ entries.filter (fun x => x.status == Status.live && keyLt e x) :=
          List.mem_filter.mpr ⟨hy, by simp [hylive, hky]⟩
        rw [hempty] at this
        exact absurd this (List.not_mem_nil _)
  · intro entries e
    constructor
    · intro x hx
      unfold get_previous at hx
      obtain ⟨hmem, hall⟩ := (lastByKey_spec _).1 x hx
      rw [List.mem_filter] at hmem
      obtain ⟨hin, hcond⟩ := hmem
      rw [Bool.and_eq_true, beq_iff_eq] at hcond
      refine ⟨hin, hcond.1, hcond.2, ?_⟩
      intro y hy hylive hky
      exact hall y (List.mem_filter.mpr ⟨hy, by simp [hylive, hky]⟩)
    · intro hn y hy hylive
      unfold get_previous at hn
      have hempty := (lastByKey_spec _).2 hn
      cases hky : keyLt y e with
      | false => rfl
      | true =>
        have : y ∈ entries.filter (fun x => x.status == Status.live && keyLt x e) :=
          List.mem_filter.mpr ⟨hy, by simp [hylive, hky]⟩
        rw [hempty] at this
        exact absurd this (List.not_mem_nil _)

/-- Witness: the C6 theorem applied at the concrete three-entry store,
with every hypothesis discharged by evaluation. -/
theorem get_next_previous_spec_witness :
    entryT3 ∈ nextPrevEntries ∧ entryT3.status = Status.live ∧
      keyLt entryT1 entryT3 = true ∧ keyLt entryT3 entryT3 = false := by
  obtain ⟨h1, h2, h3, h4⟩ :=
    (get_next_previous_spec.1 nextPrevEntries entryT1).1 entryT3 (by decide)
  exact ⟨h1, h2, h3, h4 entryT3 (by decide) (by decide) (by decide)⟩

end Coltrane

namespace Coltrane

/-- The ranking-query rows are sorted by public-comment count descending. -/
theorem rankedIds_sorted (comments : List Comment) :
    List.Sorted (fun a b : Nat => publicCount comments b ≤ publicCount comments a)
      (rankedIds comments) := by
  unfold rankedIds
  haveI : IsTotal Nat (fun a b : Nat => publicCount comments b ≤ publicCount comments a) :=
    ⟨fun a b => le_total _ _⟩
  haveI : IsTrans Nat (fun a b : Nat => publicCount comments b ≤ publicCount comments a) :=
    ⟨fun a b c hab hbc => le_trans hbc hab⟩
  exact List.sorted_insertionSort _ _

/-- An id appears among the ranking-query rows exactly when it has at
least one public comment. -/
theorem mem_rankedIds (comments : List Comment) (j : Nat) :
    j ∈ rankedIds comments ↔ 0 < publicCount comments j := by
  unfold rankedIds publicCount
  rw [List.mem_insertionSort, List.mem_dedup, List.length_pos_iff_exists_mem]
  constructor
  · intro h
    rw [List.mem_map] at h
    obtain ⟨c, hc, hcj⟩ := h
    rw [List.mem_filter] at hc
    exact ⟨c, List.mem_filter.mpr ⟨hc.1, by simp [hc.2, hcj]⟩⟩
  · rintro ⟨c, hc⟩
    rw [List.mem_filter] at hc
    obtain ⟨hcm, hcond⟩ := hc
    rw [Bool.and_eq_true, beq_iff_eq] at hcond
    rw [List.mem_map]
    exact ⟨c, List.mem_filter.mpr ⟨hcm, hcond.1⟩, hcond.2⟩

/-- The ids of the entries found by the in_bulk lookup form a sublist of
the looked-up ids, in order. -/
theorem find_ids_sublist (entries : List Entry) (ids : List Nat) :
    List.Sublist
      ((ids.filterMap (fun i => entries.find? (fun e => e.id == i))).map
        (fun e => e.id)) ids := by
  induction ids with
  | nil => simp
  | cons i rest ih =>
    rw [List.filterMap_cons]
    cases hf : entries.find? (fun e => e.id == i) with
    | none => exact ih.cons i
    | some e =>
      have hei : e.id = i := by
        have h := List.find?_some hf
        rwa [beq_iff_eq] at h
      rw [List.map_cons, hei]
      exact ih.cons₂ i

/-- Comment store for the worked example: five public comments on entry 1,
one on entry 2, three on entry 3. -/
def rankedComments : List Comment :=
  [⟨1, true⟩, ⟨1, true⟩, ⟨1, true⟩, ⟨1, true⟩, ⟨1, true⟩,
   ⟨2, true⟩, ⟨3, true⟩, ⟨3, true⟩, ⟨3, true⟩]

/-- Entry A of the worked example (five public comments). -/
def entryA : Entry := Entry.new 1 10 "a" "A" "b"

/-- Entry B of the worked example (one public comment). -/
def entryB : Entry := Entry.new 2 20 "bb" "B" "b"

/-- Entry C of the worked example (three public comments). -/
def entryC : Entry := Entry.new 3 30 "c" "C" "b"

/-- Stored entries of the worked example. -/
def rankedEntries : List Entry := [entryA, entryB, entryC]

/-- C1: most_commented returns at most num entries, ranked by their count
of publicly-visible comments in descending order, and every returned
entry's count dominates the count of every commented id left beyond the
truncation; on public-comment counts A:5, B:1, C:3, most_commented(2)
returns [A, C] in that order. -/
theorem most_commented_spec :
    (∀ (num : Nat) (comments : List Comment) (entries : List Entry),
        (most_commented num comments entries).length ≤ num ∧
          List.Sorted (fun a b : Nat => b ≤ a)
            ((most_commented num comments entries).map
              (fun e => publicCount comments e.id)) ∧
          ∀ e ∈ most_commented num comments entries, ∀ j : Nat,
            0 < publicCount comments j → j ∉ (rankedIds comments).take num →
              publicCount comments j ≤ publicCount comments e.id) ∧
      most_commented 2 rankedComments rankedEntries = [entryA, entryC] := by
  constructor
  · intro num comments entries
    refine ⟨?_, ?_, ?_⟩
    · calc (most_commented num comments entries).length
          ≤ ((rankedIds comments).take num).length := List.length_filterMap_le _ _
        _ ≤ num := by
            rw [List.length_take]
            exact min_le_left _ _
    · have htake : List.Sorted
          (fun a b : Nat => publicCount comments b ≤ publicCount comments a)
          ((rankedIds comments).take num) :=
        List.Pairwise.sublist (List.take_sublist _ _) (rankedIds_sorted comments)
      have hsub := find_ids_sublist entries ((rankedIds comments).take num)
      have hids := List.Pairwise.sublist hsub htake
      have hmap :
          ((most_commented num comments entries).map
              (fun e => publicCount comments e.id)) =
            (((most_commented num comments entries).map (fun e => e.id)).map
              (fun i => publicCount comments i)) := by
        rw [List.map_map]
        rfl
      rw [hmap]
      exact List.Pairwise.map _ (fun a b h => h) hids
    · intro e he j hj hjt
      unfold most_commented at he
      rw [List.mem_filterMap] at he
      obtain ⟨i, hi, hfind⟩ := he
      have hei : e.id = i := by
        have h := List.find?_some hfind
        rwa [beq_iff_eq] at h
      have hjr : j ∈ rankedIds comments := (mem_rankedIds comments j).mpr hj
      have hsplit :
          (rankedIds comments).take num ++ (rankedIds comments).drop num =
            rankedIds comments :=
        List.take_append_drop _ _
      have hjd : j ∈ (rankedIds comments).drop num := by
        rw [← hsplit, List.mem_append] at hjr
        rcases hjr with h | h
        · exact absurd h hjt
        · exact h
      have hpa : List.Pairwise
          (fun a b : Nat => publicCount comments b ≤ publicCount comments a)
          ((rankedIds comments).take num ++ (rankedIds comments).drop num) := by
        rw [hsplit]
        exact rankedIds_sorted comments
      have hdom := (List.pairwise_append.mp hpa).2.2 i hi j hjd
      rw [hei]
      exact hdom
  · decide

/-- Witness: the C1 theorem applied at the worked example, taking entry A
from the result and the untaken commented id 2 (entry B). -/
theorem most_commented_spec_witness :
    0 < publicCount rankedComments 2 ∧
      publicCount rankedComments 2 ≤ publicCount rankedComments entryA.id := by
  refine ⟨by decide, ?_⟩
  exact (most_commented_spec.1 2 rankedComments rankedEntries).2.2 entryA (by decide) 2
    (by decide) (by decide)

end Coltrane
